import Mathlib

/-!
Verification development for the isolated-worker execution/messaging core
(`cli/web_worker.rs`) and the formatting utilities (`cli/tools/fmt.rs`).

Worker-side internals (message channel, `Worker` driving loop, resource
table) live in `crate::worker` / `crate::ops`, outside the given sources;
those parts are modelled from the specification and are marked as such.
The `WebWorker` wrapper and the whole of `fmt.rs` are embedded directly
from the source.
-/

namespace WorkerCore

/-- A byte message, modelled as a string of bytes' characters. -/
abbrev Msg := String

/-- Error kind for channel operations after closure. -/
inductive ChannelError where
  | closed
  deriving DecidableEq, Repr

/-- Modelled from the spec: one direction of the bounded, ordered Message
Channel (`crate::worker`, not in the given sources). The queue holds
pending messages in send order; `closedFlag` marks the direction closed. -/
structure Direction where
  queue : List Msg
  closedFlag : Bool
  deriving DecidableEq, Repr

/-- Modelled from the spec: `send` enqueues a message at the tail, failing
with `ChannelClosed` once the direction is closed. -/
def Direction.send (d : Direction) (m : Msg) : Except ChannelError Direction :=
  if d.closedFlag then .error .closed
  else .ok { d with queue := d.queue ++ [m] }

/-- Modelled from the spec: `receive` dequeues the oldest message;
it yields `none` only when the queue is drained. -/
def Direction.receive (d : Direction) : Option Msg × Direction :=
  match d.queue with
  | [] => (none, d)
  | m :: rest => (some m, { d with queue := rest })

/-- Post a whole sequence of messages in order, stopping at the first
failure. -/
def Direction.sendAll (d : Direction) : List Msg → Except ChannelError Direction
  | [] => .ok d
  | m :: ms =>
    match d.send m with
    | .error e => .error e
    | .ok d1 => d1.sendAll ms

/-- Receive until the queue is drained, collecting the messages observed. -/
def Direction.drain (d : Direction) : List Msg :=
  match h : d.receive with
  | (none, _) => []
  | (some m, d1) => m :: d1.drain
termination_by d.queue.length
decreasing_by
  simp [Direction.receive] at h
  rcases hq : d.queue with _ | ⟨x, rest⟩
  · rw [hq] at h; simp at h
  · rw [hq] at h
    simp at h
    simp [hq, ← h.2]

theorem Direction.drain_eq_queue (d : Direction) : d.drain = d.queue := by
  rcases d with ⟨q, c⟩
  induction q with
  | nil => rw [Direction.drain]; simp [Direction.receive]
  | cons m rest ih =>
    rw [Direction.drain]
    simp only [Direction.receive]
    exact congrArg (m :: ·) ih

theorem Direction.sendAll_open (q : List Msg) (ms : List Msg) :
    Direction.sendAll ⟨q, false⟩ ms = .ok ⟨q ++ ms, false⟩ := by
  induction ms generalizing q with
  | nil => simp [Direction.sendAll]
  | cons m rest ih =>
    simp [Direction.sendAll, Direction.send, ih]

/-- Claim C1: messages posted through a Thread-Safe Handle before the
channel closes are received on the opposite handle exactly, in order:
per-direction FIFO, no reordering, no loss while the channel is open.
Starting from any open direction, posting the sequence `ms` succeeds and
the receiver observes the prior queue followed by `ms`, in send order. -/
theorem post_message_fifo (q ms : List Msg) (d : Direction)
    (hopen : d.closedFlag = false) (hq : d.queue = q) :
    ∃ d1, d.sendAll ms = .ok d1 ∧ d1.drain = q ++ ms := by
  rcases d with ⟨q0, c⟩
  simp only at hopen hq
  subst hopen hq
  exact ⟨⟨q0 ++ ms, false⟩, Direction.sendAll_open q0 ms,
    Direction.drain_eq_queue _⟩

theorem post_message_fifo_witness :
    ∃ d1, Direction.sendAll ⟨[], false⟩ ["hi", "[1,2,3]", "exit"] = .ok d1 ∧
      d1.drain = [] ++ ["hi", "[1,2,3]", "exit"] :=
  post_message_fifo [] ["hi", "[1,2,3]", "exit"] ⟨[], false⟩ rfl rfl

/-- Outcome of driving the Execution Context one step
(spec section 6: `advance_one_step`). -/
inductive StepOutcome where
  | idle
  | progressed
  | completedStep (r : Except String Unit)
  | closeRequest
  deriving Repr

/-- Lifecycle phase of a Worker (spec section 4.3). -/
inductive Phase where
  | created
  | running
  | completed (r : Except String Unit)
  deriving Repr

/-- Whether a phase is the terminal `Completed` phase. -/
def Phase.isCompleted : Phase → Bool
  | .completed _ => true
  | _ => false

/-- Modelled from the spec: a Worker's lifecycle state together with the
number of resource-table `unregister` calls issued for its id
(`crate::worker` / the resource table are not in the given sources). -/
structure WorkerLifecycle where
  phase : Phase
  unregisterCalls : Nat
  deriving Repr

/-- Modelled from the spec: driving one step. The first drive moves
`Created` to `Running`; a `Completed` outcome from the Execution Context
(natural exit, error) or an external close request moves the Worker to the
terminal `Completed` phase and issues exactly one `unregister` on that
transition; a terminal Worker is never driven further. -/
def driveStep (w : WorkerLifecycle) (o : StepOutcome) : WorkerLifecycle :=
  match w.phase with
  | .completed _ => w
  | _ =>
    match o with
    | .completedStep r => { phase := .completed r, unregisterCalls := w.unregisterCalls + 1 }
    | .closeRequest => { phase := .completed (.ok ()), unregisterCalls := w.unregisterCalls + 1 }
    | _ => { w with phase := .running }

/-- Drive a Worker through a whole sequence of step outcomes. -/
def drive (w : WorkerLifecycle) (os : List StepOutcome) : WorkerLifecycle :=
  os.foldl driveStep w

/-- A freshly created Worker: no unregister call has happened. -/
def initialWorker : WorkerLifecycle := ⟨.created, 0⟩

theorem driveStep_invariant (w : WorkerLifecycle) (o : StepOutcome)
    (h : w.unregisterCalls = if w.phase.isCompleted then 1 else 0) :
    (driveStep w o).unregisterCalls
      = if (driveStep w o).phase.isCompleted then 1 else 0 := by
  rcases w with ⟨p, n⟩
  rcases p with _ | _ | r <;> rcases o with _ | _ | r' | _ <;>
    simp_all [driveStep, Phase.isCompleted]

theorem drive_invariant (os : List StepOutcome) (w : WorkerLifecycle)
    (h : w.unregisterCalls = if w.phase.isCompleted then 1 else 0) :
    (drive w os).unregisterCalls
      = if (drive w os).phase.isCompleted then 1 else 0 := by
  induction os generalizing w with
  | nil => exact h
  | cons o rest ih =>
    simp only [drive, List.foldl_cons]
    exact ih (driveStep w o) (driveStep_invariant w o h)

/-- Claim C2: however a freshly created Worker is driven, the resource-table
`unregister` operation for its id has been called exactly once when (and
only when) the Worker has reached the terminal `Completed` phase — whether
completion came from natural exit, an Execution Context error, or an
explicit close — and zero times otherwise: never zero on completion and
never more than once. -/
theorem unregister_exactly_once (os : List StepOutcome) :
    (drive initialWorker os).unregisterCalls
      = if (drive initialWorker os).phase.isCompleted then 1 else 0 :=
  drive_invariant os initialWorker rfl

/-- The capability modules registered by `WebWorker::new`
(`ops::runtime`, `ops::web_worker`, `ops::worker_host`, `ops::errors`,
`ops::timers`, `ops::fetch` in `web_worker.rs`). -/
inductive CapabilityModule where
  | runtime
  | webWorkerOps
  | workerHost
  | errors
  | timers
  | fetch
  deriving DecidableEq, Repr

/-- The bare `Worker` (`crate::worker::Worker`, constructed by
`Worker::new(name, startup_data, state)`; its internals are outside the
given sources, so only the construction-visible fields are modelled:
identity, startup payload, shared state, the list of capability modules
registered into its isolate, and the completion signal its own `poll`
reports). -/
structure Worker where
  name : String
  startupData : Nat
  state : Nat
  registeredOps : List CapabilityModule
  completion : Option (Except String Unit)

/-- Modelled from the spec: `Worker::new` builds a bare Worker with no
capability modules registered and not yet completed. -/
def Worker.new (name : String) (startupData state : Nat) : Worker :=
  ⟨name, startupData, state, [], none⟩

/-- Registering one capability module into the worker's isolate
(the `ops::*::init(isolate, &state)` calls): appends the module to the
registration order. -/
def opInit (m : CapabilityModule) (w : Worker) : Worker :=
  { w with registeredOps := w.registeredOps ++ [m] }

/-- The `WebWorker` specialization: a newtype wrapper around `Worker`
(`pub struct WebWorker(Worker)` in `web_worker.rs`). -/
structure WebWorker where
  toWorker : Worker

/-- Embedding of `WebWorker::new` (`web_worker.rs` lines 26-41): build a
bare `Worker`, then register the six capability modules in source order. -/
def WebWorker.new (name : String) (startupData state : Nat) : WebWorker :=
  let worker := Worker.new name startupData state
  let worker := opInit .runtime worker
  let worker := opInit .webWorkerOps worker
  let worker := opInit .workerHost worker
  let worker := opInit .errors worker
  let worker := opInit .timers worker
  let worker := opInit .fetch worker
  ⟨worker⟩

/-- The fixed registration order of `WebWorker::new`. -/
def webWorkerCapabilityOrder : List CapabilityModule :=
  [.runtime, .webWorkerOps, .workerHost, .errors, .timers, .fetch]

/-- Claim C3: `WebWorker::new` first builds a bare Worker and then
registers exactly the fixed list of capability modules — script runtime
hooks, worker-to-worker messaging, worker spawning, error surfacing,
timers, network fetch — in one deterministic order, each exactly once; the
composition is a plain (pure, synchronous) function of its inputs, leaving
every other field of the bare Worker untouched. -/
theorem webworker_new_registers_fixed_capabilities
    (name : String) (startupData state : Nat) :
    (WebWorker.new name startupData state).toWorker
      = { Worker.new name startupData state with
          registeredOps := webWorkerCapabilityOrder }
    ∧ ∀ m : CapabilityModule,
        (WebWorker.new name startupData state).toWorker.registeredOps.count m
          = 1 := by
  refine ⟨rfl, ?_⟩
  intro m
  cases m <;> rfl

/-- Modelled from the spec: the behaviour of a worker's message-listener
script: given an inbound message, the messages it posts back and whether
it removed its own listener (`delete self.onmessage`). -/
abbrev Script := Msg → List Msg × Bool

/-- Modelled from the spec: a Worker being driven, with its script, the
two channel directions, the listener flag and the completion signal
(`crate::worker`'s driving loop is outside the given sources). -/
structure RunningWorker where
  script : Script
  toWorkerQueue : List Msg
  fromWorkerQueue : List Msg
  listenerRemoved : Bool
  completion : Option (Except String Unit)

/-- Modelled from the spec: `Handle.post_message` enqueues on the
to-worker direction; it succeeds while the channel is open (the Worker has
not completed). -/
def RunningWorker.post_message (w : RunningWorker) (m : Msg) :
    Except ChannelError RunningWorker :=
  match w.completion with
  | some _ => .error .closed
  | none => .ok { w with toWorkerQueue := w.toWorkerQueue ++ [m] }

/-- Modelled from the spec: `Handle.get_message` dequeues from the
from-worker direction. -/
def RunningWorker.get_message (w : RunningWorker) :
    Option Msg × RunningWorker :=
  match w.fromWorkerQueue with
  | [] => (none, w)
  | m :: rest => (some m, { w with fromWorkerQueue := rest })

/-- Modelled from the spec: driving the Worker dispatches at most one
pending inbound message per step; a script that has removed its listener
signals natural completion (`Completed(Ok(()))`), and a completed Worker
is never driven further. -/
def RunningWorker.driveOnce (w : RunningWorker) : RunningWorker :=
  match w.completion with
  | some _ => w
  | none =>
    if w.listenerRemoved then { w with completion := some (.ok ()) }
    else
      match w.toWorkerQueue with
      | [] => w
      | m :: rest =>
        let (replies, removed) := w.script m
        { w with toWorkerQueue := rest,
                 fromWorkerQueue := w.fromWorkerQueue ++ replies,
                 listenerRemoved := removed,
                 completion := if removed then some (.ok ()) else none }

/-- The script of `test_worker_messages`: on `"exit"` it removes its
listener and does not reply; on any other message it posts `[1,2,3]`
back. Messages travel JSON-serialized, so the `"hi"` payload is the bytes
of `"\"hi\""`. -/
def echoScript : Script := fun m =>
  if m = "\"exit\"" then ([], true) else (["[1,2,3]"], false)

/-- A freshly started worker running the given script, channels empty. -/
def startWorker (s : Script) : RunningWorker := ⟨s, [], [], false, none⟩

/-- Claim C5: echo scenario. Posting `"hi"` to the echo worker succeeds;
after the worker dispatches it, `get_message` returns `Some` of the bytes
`[1,2,3]`; posting `"exit"` succeeds; and after the worker dispatches it
(the script removes its listener) the Worker completes with `Ok(())`. -/
theorem echo_scenario :
    (startWorker echoScript).post_message "\"hi\""
        = .ok ⟨echoScript, ["\"hi\""], [], false, none⟩
    ∧ (RunningWorker.driveOnce ⟨echoScript, ["\"hi\""], [], false, none⟩).get_message
        = (some "[1,2,3]", ⟨echoScript, [], [], false, none⟩)
    ∧ (RunningWorker.post_message ⟨echoScript, [], [], false, none⟩ "\"exit\"")
        = .ok ⟨echoScript, ["\"exit\""], [], false, none⟩
    ∧ (RunningWorker.driveOnce ⟨echoScript, ["\"exit\""], [], false, none⟩).completion
        = some (.ok ()) := by
  refine ⟨rfl, ?_, rfl, ?_⟩ <;>
    simp [RunningWorker.driveOnce, RunningWorker.get_message, echoScript]

/-- The script of `removed_from_resource_table_on_close`: it removes its
own listener on the first message, without replying. -/
def removeOnFirstScript : Script := fun _ => ([], true)

/-- Claim C6: a worker whose script removes its own listener on the first
message without replying: the owner's `post_message("hi")` still returns
`Ok` (no `ChannelClosed`), after dispatch the Worker completes with
`Ok(())`, and no reply message ever appears on the from-worker direction. -/
theorem remove_listener_scenario :
    (startWorker removeOnFirstScript).post_message "\"hi\""
        = .ok ⟨removeOnFirstScript, ["\"hi\""], [], false, none⟩
    ∧ (RunningWorker.driveOnce
        ⟨removeOnFirstScript, ["\"hi\""], [], false, none⟩).completion
        = some (.ok ())
    ∧ (RunningWorker.driveOnce
        ⟨removeOnFirstScript, ["\"hi\""], [], false, none⟩).fromWorkerQueue
        = [] := by
  refine ⟨rfl, ?_, ?_⟩ <;>
    simp [RunningWorker.driveOnce, removeOnFirstScript]

/-- Poll outcome of a future (`std::task::Poll`). -/
inductive PollOutcome (α : Type) where
  | pending
  | ready (a : α)

/-- Modelled from the spec: polling the bare Worker reports its completion
signal when the Execution Context has finished, and pending otherwise
(`Worker`'s own `Future` impl is outside the given sources). -/
def Worker.poll (w : Worker) : PollOutcome (Except String Unit) :=
  match w.completion with
  | none => .pending
  | some r => .ready r

/-- Embedding of `impl Future for WebWorker` (`web_worker.rs` lines
56-63): polling delegates to the inner Worker (`inner.0.poll_unpin(cx)`). -/
def WebWorker.poll (ww : WebWorker) : PollOutcome (Except String Unit) :=
  ww.toWorker.poll

/-- Claim C4: awaiting a `WebWorker` is exactly awaiting its inner bare
`Worker`: every poll outcome of the wrapper — pending, `Completed(Ok)` or
`Completed(Err)` — equals the outcome of polling the Worker it wraps, so
the specialization adds no behaviour to the completion signal. -/
theorem webworker_poll_is_inner_poll (ww : WebWorker) :
    ww.poll = ww.toWorker.poll
    ∧ (ww.poll = .pending ↔ ww.toWorker.poll = .pending)
    ∧ (∀ r, ww.poll = .ready r ↔ ww.toWorker.poll = .ready r) :=
  ⟨rfl, Iff.rfl, fun _ => Iff.rfl⟩

end WorkerCore

namespace Fmt

/-- A file's text, one entry per character of the UTF-8 decoded contents. -/
abbrev Text := List Char

/-- A file path, modelled by its stem and optional extension. -/
structure FilePath where
  stem : String
  extension : Option String
  deriving DecidableEq, Repr

/-- Modelled from the spec: `fs_util::get_extension` (not in the given
sources) yields the path's extension when the path has one. -/
def get_extension (p : FilePath) : Option String := p.extension

/-- The formatting options (`config_file::FmtOptionsConfig`, outside the
given sources); its fields only parameterize the external engines. -/
structure FmtOptionsConfig where
  use_tabs : Option Bool
  line_width : Option Nat
  indent_width : Option Nat
  single_quote : Option Bool
  deriving DecidableEq, Repr

/-- Options with nothing overridden. -/
def defaultOpts : FmtOptionsConfig := ⟨none, none, none, none⟩

/-- The external dprint formatting engines (external collaborators):
each takes file text and options and returns formatted text or an error
message, exactly the `Result<String, String>` contract of the spec. -/
structure Engines where
  markdown : Text → FmtOptionsConfig → Except String Text
  json : Text → FmtOptionsConfig → Except String Text
  typescript : FilePath → Text → FmtOptionsConfig → Except String Text

/-- The markdown extensions accepted by `format_file`. -/
def mdExtensions : List String := ["md", "mkd", "mkdn", "mdwn", "mdown", "markdown"]

/-- The JSON extensions accepted by `format_file`. -/
def jsonExtensions : List String := ["json", "jsonc"]

/-- Embedding of `format_file` (`fmt.rs` lines 217-235): take the path's
extension (empty when missing), dispatch markdown extensions to the
markdown engine, `json`/`jsonc` to the JSON engine, and everything else to
the TypeScript engine. -/
def format_file (eng : Engines) (file_path : FilePath) (file_text : Text)
    (fmt_options : FmtOptionsConfig) : Except String Text :=
  let ext := (get_extension file_path).getD ""
  if ext ∈ mdExtensions then eng.markdown file_text fmt_options
  else if ext ∈ jsonExtensions then eng.json file_text fmt_options
  else eng.typescript file_path file_text fmt_options

/-- Claim C8: `format_file` is total — for every path and text it returns
`Ok` formatted text or an `Err` message — and dispatches on the path's
extension: the six markdown extensions go to markdown formatting,
`json`/`jsonc` to JSON formatting, and any other extension, a missing one
included, to TypeScript formatting. -/
theorem format_file_dispatch (eng : Engines) (p : FilePath) (t : Text)
    (o : FmtOptionsConfig) :
    ((∃ s, format_file eng p t o = .ok s) ∨ ∃ e, format_file eng p t o = .error e)
    ∧ ((get_extension p).getD "" ∈ mdExtensions →
        format_file eng p t o = eng.markdown t o)
    ∧ ((get_extension p).getD "" ∈ jsonExtensions →
        format_file eng p t o = eng.json t o)
    ∧ ((get_extension p).getD "" ∉ mdExtensions ∧
        (get_extension p).getD "" ∉ jsonExtensions →
        format_file eng p t o = eng.typescript p t o)
    ∧ (get_extension p = none → format_file eng p t o = eng.typescript p t o) := by
  refine ⟨?_, ?_, ?_, ?_, ?_⟩
  · rcases h : format_file eng p t o with e | s
    · exact Or.inr ⟨e, rfl⟩
    · exact Or.inl ⟨s, rfl⟩
  · intro h
    simp [format_file, h]
  · intro h
    have hmd : (get_extension p).getD "" ∉ mdExtensions := by
      simp only [jsonExtensions, List.mem_cons, List.not_mem_nil, or_false] at h
      rcases h with h | h <;> simp [h, mdExtensions]
    simp [format_file, hmd, h]
  · rintro ⟨h1, h2⟩
    simp [format_file, h1, h2]
  · intro h
    have h1 : (get_extension p).getD "" = "" := by simp [h]
    rw [format_file]
    simp [h1, mdExtensions, jsonExtensions]

/-- A concrete engine triple (constant outputs) used to instantiate the
formatting theorems. -/
def constEngine : Engines :=
  ⟨fun _ _ => .ok [], fun _ _ => .ok [], fun _ _ _ => .ok []⟩

theorem format_file_dispatch_witness :
    format_file constEngine ⟨"README", some "md"⟩ [] defaultOpts
        = constEngine.markdown [] defaultOpts
    ∧ format_file constEngine ⟨"cfg", some "jsonc"⟩ [] defaultOpts
        = constEngine.json [] defaultOpts
    ∧ format_file constEngine ⟨"main", none⟩ [] defaultOpts
        = constEngine.typescript ⟨"main", none⟩ [] defaultOpts :=
  ⟨(format_file_dispatch constEngine ⟨"README", some "md"⟩ [] defaultOpts).2.1
      (by decide),
   (format_file_dispatch constEngine ⟨"cfg", some "jsonc"⟩ [] defaultOpts).2.2.1
      (by decide),
   (format_file_dispatch constEngine ⟨"main", none⟩ [] defaultOpts).2.2.2.2 rfl⟩

/-- The result of awaiting one spawned per-file task (a
`tokio::task::JoinHandle`): either the task panicked (the join fails) or
it finished with the closure's own result. -/
inductive JoinOutcome where
  | panicked
  | finished (r : Except String Unit)

/-- How `run_parallelized` ends: a panic of the driving task itself (with
its message), an error result, or success. -/
inductive RunOutcome where
  | processPanic (msg : String)
  | failed (e : String)
  | passed
  deriving Repr

/-- Whether a `run_parallelized` outcome is an error result (`Err`), as
opposed to success or a panic. -/
def RunOutcome.isErrorResult : RunOutcome → Bool
  | .failed _ => true
  | _ => false

/-- The file paths whose spawned task panicked, in input order
(`fmt.rs` lines 566-575). -/
def panickedPaths (results : List (String × JoinOutcome)) : List String :=
  results.filterMap fun pr =>
    match pr.2 with
    | .panicked => some pr.1
    | .finished _ => none

/-- The first error returned by a task that did not panic
(`fmt.rs` lines 581-586). -/
def firstTaskError (results : List (String × JoinOutcome)) : Option String :=
  (results.filterMap fun pr =>
    match pr.2 with
    | .finished (.error e) => some e
    | _ => none).head?

/-- Embedding of `run_parallelized` (`fmt.rs` lines 551-593), after all
per-file tasks have been joined: when any task panicked, the driving
function itself panics with one aggregate message listing the panicked
files; otherwise the first per-task error, if any, is returned. -/
def run_parallelized (results : List (String × JoinOutcome)) : RunOutcome :=
  let panic_file_paths := panickedPaths results
  if panic_file_paths.isEmpty then
    match firstTaskError results with
    | some e => .failed e
    | none => .passed
  else
    .processPanic ("Panic formatting: " ++ String.intercalate ", " panic_file_paths)

/-- Claim C7 counterexample: with a single file whose driving task
panicked, `run_parallelized` does not convert the fault into an error
result — it panics itself (with the aggregate message), so the fault is
left to crash the process rather than being returned as `Err`. -/
theorem run_parallelized_panics_counterexample :
    run_parallelized [("a.ts", .panicked)]
        = .processPanic "Panic formatting: a.ts"
    ∧ (run_parallelized [("a.ts", .panicked)]).isErrorResult = false := by
  exact ⟨rfl, rfl⟩

/-- Claim C7 as amended: when at least one per-file task panicked, the
panic is caught at the join and reported — never silently swallowed — by
one aggregate panic of the driving function whose message names every
faulted file in order; the fault is re-raised as a panic, not converted
into an error result. -/
theorem run_parallelized_aggregate_panic
    (results : List (String × JoinOutcome))
    (h : panickedPaths results ≠ []) :
    run_parallelized results
      = .processPanic
          ("Panic formatting: " ++ String.intercalate ", " (panickedPaths results)) := by
  rw [run_parallelized]
  simp [List.isEmpty_iff, h]

theorem run_parallelized_aggregate_panic_witness :
    run_parallelized [("a.ts", .panicked), ("b.ts", .finished (.ok ()))]
      = .processPanic
          ("Panic formatting: " ++ String.intercalate ", "
            (panickedPaths [("a.ts", .panicked), ("b.ts", .finished (.ok ()))])) :=
  run_parallelized_aggregate_panic
    [("a.ts", .panicked), ("b.ts", .finished (.ok ()))]
    (by simp [panickedPaths])

/-- Counters accumulated by `check_source_files` (the two atomics). -/
structure CheckCounters where
  not_formatted_files_count : Nat
  checked_files_count : Nat
  deriving DecidableEq, Repr

/-- The byte-order-mark character (`text_encoding::BOM_CHAR`). -/
def BOM_CHAR : Char := '﻿'

/-- Whether a text begins with the byte-order mark. -/
def startsWithBom : Text → Bool
  | [] => false
  | c :: _ => c == BOM_CHAR

/-- A file's decoded text together with whether a BOM was stripped
(`struct FileContents` in `fmt.rs` lines 518-521). -/
structure FileContents where
  text : Text
  had_bom : Bool

/-- Embedding of `read_file_contents` (`fmt.rs` lines 523-535) over
in-memory UTF-8 file contents: detect a leading BOM, strip it from the
text, and remember that it was present. -/
def read_file_contents (file_bytes : Text) : FileContents :=
  let had_bom := startsWithBom file_bytes
  ⟨if had_bom then file_bytes.tail else file_bytes, had_bom⟩

/-- Embedding of `write_file_contents` (`fmt.rs` lines 537-549): add the
BOM back in front of the text exactly when the original file had one. -/
def write_file_contents (file_contents : FileContents) : Text :=
  if file_contents.had_bom then BOM_CHAR :: file_contents.text
  else file_contents.text

/-- Embedding of the per-file closure of `check_source_files` (`fmt.rs`
lines 261-283), counter part: bump the checked counter, then read the file
— a failed read aborts the closure right there, after the increment (the
`?` on `read_file_contents`) — and format its BOM-stripped text; a
formatted result that differs from that text bumps the not-formatted
counter (and prints a diff); a formatting error is only reported to
stderr. Nothing is written to disk. -/
def checkOneFile (eng : Engines) (fmt_options : FmtOptionsConfig)
    (rawFs : FilePath → Except String Text) (st : CheckCounters)
    (p : FilePath) : CheckCounters :=
  let st1 := { st with checked_files_count := st.checked_files_count + 1 }
  match rawFs p with
  | .error _ => st1
  | .ok raw =>
    let file_text := (read_file_contents raw).text
    match format_file eng p file_text fmt_options with
    | .ok formatted_text =>
      if formatted_text ≠ file_text then
        { st1 with
          not_formatted_files_count := st1.not_formatted_files_count + 1 }
      else st1
    | .error _ => st1

/-- The first failed closure's error, in path order: a check closure fails
exactly when its file read fails (`read_file_contents(&file_path)?`), and
`run_parallelized` returns the first such error (`fmt.rs` lines 581-592),
which `check_source_files` then propagates with `?`. -/
def firstReadError (rawFs : FilePath → Except String Text)
    (paths : List FilePath) : Option String :=
  (paths.filterMap fun p =>
    match rawFs p with
    | .error e => some e
    | .ok _ => none).head?

/-- The `Err` message of a failed check. -/
def notFormattedMsg (n k : Nat) : String :=
  "Found " ++ toString n ++ " not formatted files in " ++ toString k
    ++ " files"

/-- Embedding of `check_source_files` (`fmt.rs` lines 248-302): run the
per-file check over every path; a failed read surfaces as the first
closure error out of `run_parallelized` and is returned; otherwise fail
exactly when some file was found not formatted. The second component is
the list of `(path, new contents)` writes performed; check mode performs
none. -/
def check_source_files (eng : Engines)
    (rawFs : FilePath → Except String Text) (paths : List FilePath)
    (fmt_options : FmtOptionsConfig) :
    Except String Unit × List (FilePath × Text) :=
  let final := paths.foldl (checkOneFile eng fmt_options rawFs) ⟨0, 0⟩
  match firstReadError rawFs paths with
  | some e => (.error e, [])
  | none =>
    (if final.not_formatted_files_count = 0 then .ok ()
     else
       .error (notFormattedMsg final.not_formatted_files_count
         final.checked_files_count),
     [])

/-- Whether `check_source_files` counts the file as not formatted: the
read succeeded and formatting its BOM-stripped text succeeded with
different text. -/
def isNotFormatted (eng : Engines) (fmt_options : FmtOptionsConfig)
    (rawFs : FilePath → Except String Text) (p : FilePath) : Bool :=
  match rawFs p with
  | .error _ => false
  | .ok raw =>
    match format_file eng p (read_file_contents raw).text fmt_options with
    | .ok s => decide (s ≠ (read_file_contents raw).text)
    | .error _ => false

theorem checkOneFile_counts (eng : Engines) (o : FmtOptionsConfig)
    (rawFs : FilePath → Except String Text) (st : CheckCounters)
    (p : FilePath) :
    checkOneFile eng o rawFs st p
      = ⟨st.not_formatted_files_count
            + (if isNotFormatted eng o rawFs p then 1 else 0),
         st.checked_files_count + 1⟩ := by
  rcases st with ⟨a, b⟩
  rw [checkOneFile, isNotFormatted]
  rcases hr : rawFs p with e | raw
  · simp
  · rcases h : format_file eng p (read_file_contents raw).text o with e | s
    · simp [h]
    · by_cases hne : s = (read_file_contents raw).text <;> simp [h, hne]

theorem check_foldl_counts (eng : Engines) (o : FmtOptionsConfig)
    (rawFs : FilePath → Except String Text) (paths : List FilePath)
    (st : CheckCounters) :
    paths.foldl (checkOneFile eng o rawFs) st
      = ⟨st.not_formatted_files_count
            + paths.countP (isNotFormatted eng o rawFs),
         st.checked_files_count + paths.length⟩ := by
  induction paths generalizing st with
  | nil => simp
  | cons p rest ih =>
    rw [List.foldl_cons, ih, checkOneFile_counts, List.countP_cons]
    rcases st with ⟨a, b⟩
    by_cases h : isNotFormatted eng o rawFs p <;>
      simp [h] <;> omega

theorem isNotFormatted_err (eng : Engines) (o : FmtOptionsConfig)
    (rawFs : FilePath → Except String Text) (p : FilePath) (e : String)
    (hr : rawFs p = .error e) : isNotFormatted eng o rawFs p = false := by
  rw [isNotFormatted, hr]

theorem isNotFormatted_ok (eng : Engines) (o : FmtOptionsConfig)
    (rawFs : FilePath → Except String Text) (p : FilePath) (raw : Text)
    (hr : rawFs p = .ok raw) :
    isNotFormatted eng o rawFs p
      = match format_file eng p (read_file_contents raw).text o with
        | .ok s => decide (s ≠ (read_file_contents raw).text)
        | .error _ => false := by
  rw [isNotFormatted, hr]

theorem isNotFormatted_iff (eng : Engines) (o : FmtOptionsConfig)
    (rawFs : FilePath → Except String Text) (p : FilePath) :
    isNotFormatted eng o rawFs p = true ↔
      ∃ raw s, rawFs p = .ok raw
        ∧ format_file eng p (read_file_contents raw).text o = .ok s
        ∧ s ≠ (read_file_contents raw).text := by
  constructor
  · intro hd
    rcases hr : rawFs p with e | raw
    · rw [isNotFormatted_err eng o rawFs p e hr] at hd
      exact Bool.noConfusion hd
    · rw [isNotFormatted_ok eng o rawFs p raw hr] at hd
      rcases h : format_file eng p (read_file_contents raw).text o with e | s
      · rw [h] at hd
        exact Bool.noConfusion hd
      · rw [h] at hd
        exact ⟨raw, s, rfl, h, of_decide_eq_true hd⟩
  · rintro ⟨raw, s, hraw, hfmt, hne⟩
    rw [isNotFormatted_ok eng o rawFs p raw hraw, hfmt]
    exact decide_eq_true hne

theorem check_result_eq (eng : Engines)
    (rawFs : FilePath → Except String Text) (paths : List FilePath)
    (o : FmtOptionsConfig) :
    (check_source_files eng rawFs paths o).1
      = match firstReadError rawFs paths with
        | some e => .error e
        | none =>
          if paths.countP (isNotFormatted eng o rawFs) = 0 then .ok ()
          else .error (notFormattedMsg
            (paths.countP (isNotFormatted eng o rawFs)) paths.length) := by
  rw [check_source_files, check_foldl_counts]
  rcases firstReadError rawFs paths with _ | e <;> simp

theorem firstReadError_none (rawFs : FilePath → Except String Text)
    (paths : List FilePath) (hfe : firstReadError rawFs paths = none) :
    ∀ p ∈ paths, ∀ e, rawFs p ≠ .error e := by
  intro p hp e hcontra
  have hmem : e ∈ paths.filterMap fun q =>
      match rawFs q with
      | .error e1 => some e1
      | .ok _ => none :=
    List.mem_filterMap.mpr ⟨p, hp, by rw [hcontra]⟩
  rw [firstReadError] at hfe
  rcases hL : (paths.filterMap fun q =>
      match rawFs q with
      | .error e1 => some e1
      | .ok _ => none) with _ | ⟨x, rest⟩
  · rw [hL] at hmem
    simp at hmem
  · rw [hL] at hfe
    simp at hfe

theorem firstReadError_some (rawFs : FilePath → Except String Text)
    (paths : List FilePath) (e : String)
    (hfe : firstReadError rawFs paths = some e) :
    ∃ p ∈ paths, rawFs p = .error e := by
  rw [firstReadError] at hfe
  rcases hL : (paths.filterMap fun q =>
      match rawFs q with
      | .error e1 => some e1
      | .ok _ => none) with _ | ⟨x, rest⟩
  · rw [hL] at hfe
    simp at hfe
  · rw [hL] at hfe
    have hx : x = e := by simpa using hfe
    subst hx
    have hmem : x ∈ paths.filterMap fun q =>
        match rawFs q with
        | .error e1 => some e1
        | .ok _ => none := by
      rw [hL]
      exact List.mem_cons_self x rest
    rcases List.mem_filterMap.mp hmem with ⟨p, hp, hmatch⟩
    rcases hr : rawFs p with e2 | raw
    · rw [hr] at hmatch
      have he2 : e2 = x := by simpa using hmatch
      exact ⟨p, hp, by rw [hr, he2]⟩
    · rw [hr] at hmatch
      simp at hmatch

/-- Claim C9 as amended: `check_source_files` returns `Err` exactly when
either some file's contents cannot be read (the first read error is
returned), or at least one readable file's BOM-stripped text formats `Ok`
to text differing from it; a file whose `format_file` fails is only
reported to stderr and never contributes, so formatting failures alone
never make the check fail; every path is counted as checked; and check
mode performs no writes. -/
theorem check_source_files_spec (eng : Engines)
    (rawFs : FilePath → Except String Text) (paths : List FilePath)
    (o : FmtOptionsConfig) :
    ((∃ e, (check_source_files eng rawFs paths o).1 = .error e)
      ↔ (∃ p ∈ paths, ∃ e, rawFs p = .error e)
        ∨ ∃ p ∈ paths, ∃ raw s, rawFs p = .ok raw
            ∧ format_file eng p (read_file_contents raw).text o = .ok s
            ∧ s ≠ (read_file_contents raw).text)
    ∧ (paths.foldl (checkOneFile eng o rawFs) ⟨0, 0⟩).checked_files_count
        = paths.length
    ∧ (check_source_files eng rawFs paths o).2 = [] := by
  refine ⟨?_, ?_, ?_⟩
  · rw [check_result_eq]
    rcases hfe : firstReadError rawFs paths with _ | e
    · have hnoerr := firstReadError_none rawFs paths hfe
      by_cases hc : paths.countP (isNotFormatted eng o rawFs) = 0
      · simp only [hc, if_pos]
        simp only [List.countP_eq_zero] at hc
        constructor
        · rintro ⟨e, he⟩
          simp at he
        · rintro (⟨p, hp, e, herr⟩ | ⟨p, hp, raw, s, hraw, hfmt, hne⟩)
          · exact absurd herr (hnoerr p hp e)
          · exact absurd ((isNotFormatted_iff eng o rawFs p).mpr
              ⟨raw, s, hraw, hfmt, hne⟩) (by simp [hc p hp])
      · simp only [if_neg hc]
        constructor
        · intro _
          have hpos : 0 < paths.countP (isNotFormatted eng o rawFs) :=
            Nat.pos_of_ne_zero hc
          rcases List.countP_pos_iff.mp hpos with ⟨p, hp, hnf⟩
          rcases (isNotFormatted_iff eng o rawFs p).mp hnf
            with ⟨raw, s, hraw, hfmt, hne⟩
          exact Or.inr ⟨p, hp, raw, s, hraw, hfmt, hne⟩
        · intro _
          exact ⟨_, rfl⟩
    · constructor
      · intro _
        rcases firstReadError_some rawFs paths e hfe with ⟨p, hp, herr⟩
        exact Or.inl ⟨p, hp, e, herr⟩
      · intro _
        exact ⟨e, rfl⟩
  · rw [check_foldl_counts]
    simp
  · rw [check_source_files]
    rcases firstReadError rawFs paths with _ | e <;> simp

/-- The effects accumulated by `format_source_files`: the file writes
performed (path with the new raw contents) and the two counters. -/
structure FormatRun where
  writes : List (FilePath × Text)
  formatted_files_count : Nat
  checked_files_count : Nat

/-- Embedding of the per-file closure of `format_source_files` (`fmt.rs`
lines 315-341): read the file (stripping a BOM), format the stripped text;
when formatting succeeds with different text, write the file back with the
BOM restored if it had one; a formatting error is only reported to
stderr and the file untouched. -/
def formatOneFile (eng : Engines) (fmt_options : FmtOptionsConfig)
    (fs : FilePath → Text) (st : FormatRun) (p : FilePath) : FormatRun :=
  let st1 := { st with checked_files_count := st.checked_files_count + 1 }
  let file_contents := read_file_contents (fs p)
  match format_file eng p file_contents.text fmt_options with
  | .ok formatted_text =>
    if formatted_text ≠ file_contents.text then
      { st1 with
        writes := st1.writes
          ++ [(p, write_file_contents ⟨formatted_text, file_contents.had_bom⟩)],
        formatted_files_count := st1.formatted_files_count + 1 }
    else st1
  | .error _ => st1

/-- Embedding of `format_source_files` (`fmt.rs` lines 304-360): run the
per-file formatting over every path, starting from no writes. -/
def format_source_files (eng : Engines) (fs : FilePath → Text)
    (paths : List FilePath) (fmt_options : FmtOptionsConfig) : FormatRun :=
  paths.foldl (formatOneFile eng fmt_options fs) ⟨[], 0, 0⟩

/-- The write `format_source_files` performs for one path, if any. -/
def writeFor (eng : Engines) (o : FmtOptionsConfig) (fs : FilePath → Text)
    (p : FilePath) : Option Text :=
  let file_contents := read_file_contents (fs p)
  match format_file eng p file_contents.text o with
  | .ok formatted_text =>
    if formatted_text ≠ file_contents.text then
      some (write_file_contents ⟨formatted_text, file_contents.had_bom⟩)
    else none
  | .error _ => none

theorem formatOneFile_writes (eng : Engines) (o : FmtOptionsConfig)
    (fs : FilePath → Text) (st : FormatRun) (p : FilePath) :
    (formatOneFile eng o fs st p).writes
      = st.writes ++ ((writeFor eng o fs p).map fun w => (p, w)).toList := by
  rw [formatOneFile, writeFor]
  rcases h : format_file eng p (read_file_contents (fs p)).text o with e | s
  · simp
  · by_cases hne : s = (read_file_contents (fs p)).text <;> simp [hne]

theorem format_foldl_writes (eng : Engines) (o : FmtOptionsConfig)
    (fs : FilePath → Text) (paths : List FilePath) (st : FormatRun) :
    (paths.foldl (formatOneFile eng o fs) st).writes
      = st.writes
        ++ paths.filterMap fun p => (writeFor eng o fs p).map fun w => (p, w) := by
  induction paths generalizing st with
  | nil => simp
  | cons p rest ih =>
    rw [List.foldl_cons, ih, List.filterMap_cons]
    rcases h : writeFor eng o fs p with _ | w
    · simp [formatOneFile_writes, h]
    · simp [formatOneFile_writes, h]

theorem mem_format_writes (eng : Engines) (o : FmtOptionsConfig)
    (fs : FilePath → Text) (paths : List FilePath) (p : FilePath) (w : Text) :
    (p, w) ∈ (format_source_files eng fs paths o).writes ↔
      p ∈ paths ∧ writeFor eng o fs p = some w := by
  rw [format_source_files, format_foldl_writes]
  simp only [List.nil_append, List.mem_filterMap]
  constructor
  · rintro ⟨q, hq, hw⟩
    rcases hwq : writeFor eng o fs q with _ | w1
    · rw [hwq] at hw
      exact Option.noConfusion hw
    · rw [hwq] at hw
      have hw1 := Option.some.inj hw
      injection hw1 with h1 h2
      subst h1
      subst h2
      exact ⟨hq, hwq⟩
  · rintro ⟨hp, hw⟩
    refine ⟨p, hp, ?_⟩
    rw [hw]
    rfl

/-- Claim C10: `format_source_files` preserves each file's BOM status
(granted the external engines never emit BOM-leading text): reading strips
the BOM before the text is formatted and records its presence; every write
performed begins with a BOM exactly when the original file contents did;
and a file whose formatted text equals its current (stripped) text is not
written at all. -/
theorem format_source_files_bom (eng : Engines) (fs : FilePath → Text)
    (paths : List FilePath) (o : FmtOptionsConfig)
    (hfmt : ∀ p t s, format_file eng p t o = .ok s → startsWithBom s = false) :
    (∀ raw, (read_file_contents raw).had_bom = startsWithBom raw
      ∧ (if startsWithBom raw then raw = BOM_CHAR :: (read_file_contents raw).text
         else (read_file_contents raw).text = raw))
    ∧ (∀ p w, (p, w) ∈ (format_source_files eng fs paths o).writes →
        startsWithBom w = startsWithBom (fs p))
    ∧ (∀ p, format_file eng p (read_file_contents (fs p)).text o
          = .ok (read_file_contents (fs p)).text →
        p ∉ (format_source_files eng fs paths o).writes.map Prod.fst) := by
  have hread : ∀ raw, (read_file_contents raw).had_bom = startsWithBom raw
      ∧ (if startsWithBom raw then raw = BOM_CHAR :: (read_file_contents raw).text
         else (read_file_contents raw).text = raw) := by
    intro raw
    rcases raw with _ | ⟨c, rest⟩
    · exact ⟨rfl, rfl⟩
    · by_cases hc : c = BOM_CHAR
      · subst hc
        refine ⟨rfl, ?_⟩
        simp [startsWithBom, read_file_contents]
      · have hs : startsWithBom (c :: rest) = false := by
          simp [startsWithBom, hc]
        refine ⟨by simp [read_file_contents, hs], ?_⟩
        simp [hs, read_file_contents]
  refine ⟨hread, ?_, ?_⟩
  · intro p w hmem
    rcases (mem_format_writes eng o fs paths p w).mp hmem with ⟨_, hw⟩
    rw [writeFor] at hw
    rcases hfmtp : format_file eng p (read_file_contents (fs p)).text o
      with e | s
    · rw [hfmtp] at hw
      simp at hw
    · rw [hfmtp] at hw
      by_cases hne : s = (read_file_contents (fs p)).text
      · simp [hne] at hw
      · simp only [hne, ne_eq, not_false_iff, if_pos, Option.some.injEq] at hw
        have hsb : startsWithBom s = false := hfmt p _ s hfmtp
        have hb := (hread (fs p)).1
        rw [← hw, write_file_contents]
        by_cases hbom : startsWithBom (fs p) = true
        · simp only [hb, hbom, if_pos]
          simp [startsWithBom, hbom]
        · have hbom' : startsWithBom (fs p) = false := by
            revert hbom; cases startsWithBom (fs p) <;> simp
          simp [hb, hbom', hsb]
  · intro p hfix hmem
    rcases List.mem_map.mp hmem with ⟨pw, hqw, hq⟩
    rcases pw with ⟨q, w⟩
    have hq1 : q = p := hq
    rw [hq1] at hqw
    rcases (mem_format_writes eng o fs paths p w).mp hqw with ⟨_, hw⟩
    rw [writeFor, hfix] at hw
    simp at hw

/-- A sample in-memory file whose contents begin with a BOM. -/
def demoPath : FilePath := ⟨"a", none⟩

/-- A sample file system assigning every path BOM-led contents. -/
def demoFs : FilePath → Text := fun _ => [BOM_CHAR, 'a']

theorem constEngine_no_bom (o : FmtOptionsConfig) (p : FilePath) (t s : Text)
    (h : format_file constEngine p t o = .ok s) : startsWithBom s = false := by
  rw [format_file] at h
  by_cases h1 : (get_extension p).getD "" ∈ mdExtensions <;>
    by_cases h2 : (get_extension p).getD "" ∈ jsonExtensions <;>
      simp only [h1, h2, if_pos, if_neg, if_true, if_false, constEngine,
        Except.ok.injEq, not_false_iff] at h <;>
      simp [← h, startsWithBom]

theorem format_source_files_bom_witness :
    startsWithBom [BOM_CHAR] = startsWithBom (demoFs demoPath) :=
  (format_source_files_bom constEngine demoFs [demoPath] defaultOpts
      (fun p t s h => constEngine_no_bom defaultOpts p t s h)).2.1
    demoPath [BOM_CHAR] (by decide)

/-- A file system on which every read fails (for example, the file is
unreadable or not valid UTF-16/UTF-8 for `convert_to_utf8`). -/
def failFs : FilePath → Except String Text := fun _ => .error "read failed"

/-- Claim C9 counterexample: with a single file whose read fails,
`check_source_files` returns `Err` (the propagated read error) although no
file's `format_file` result is `Ok` with differing text — the file is not
counted as not formatted (nothing was formatted at all), refuting
`Err` exactly when some file formats `Ok` to different text. -/
theorem check_read_error_counterexample :
    (check_source_files constEngine failFs [demoPath] defaultOpts).1
        = .error "read failed"
    ∧ isNotFormatted constEngine defaultOpts failFs demoPath = false
    ∧ [demoPath].countP (isNotFormatted constEngine defaultOpts failFs)
        = 0 := by
  refine ⟨rfl, rfl, rfl⟩

end Fmt
